import Mathlib

/-!
Verification of the rShell core (`src/main.rs`): the pipeline execution
loop, the tokenizer, the history management functions and the `cd` / `pwd`
builtins, shallowly embedded in Lean.  Rust strings are modelled as
`List Char` (for functions whose claims need character-level reasoning) or
as `String` (where entries are opaque); the operating system (spawning,
`set_current_dir`, environment variables, the history file) is passed in
as explicit oracles/arguments.  Functions carrying a
`Modelled from the spec:` doc comment embed behaviour of the external
`rustyline` line-editing collaborator, which is not part of this
repository; everything else is translated directly from `src/main.rs`.
-/

namespace RShell

/-- Constant `const HISTSIZE: usize = 1500;` (main.rs line 13). -/
def HISTSIZE : Nat := 1500

/-- Constant `const HISTFILESIZE: usize = 2200;` (main.rs line 14). -/
def HISTFILESIZE : Nat := 2200

/-- Rust `str::trim` on the model `List Char`: drop whitespace from the
front, then from the back (via reverse). -/
def rustTrim (s : List Char) : List Char :=
  ((s.dropWhile Char.isWhitespace).reverse.dropWhile Char.isWhitespace).reverse

/-- Holds (`true`) iff the first character exists and is whitespace. -/
def hasLeadWs (l : List Char) : Bool :=
  (l.head?.map Char.isWhitespace).getD false

/-- Function `trim_shell_history` (main.rs lines 228-242): read the whole history,
keep the slice `[start..]` where `start = len - HISTSIZE` when over the
cap, clear, and re-add exactly that slice. -/
def trim_shell_history (h : List (List Char)) : List (List Char) :=
  let start := if h.length > HISTSIZE then h.length - HISTSIZE else 0
  h.drop start

/-- The history-recording step of `rshell_loop` (main.rs lines 118-128):
trim the raw line; if it is non-empty and the raw line does not start with
a space (`HISTCONTROL=ignorespace`), append the trimmed line and trim the
buffer.  The rustyline `add_history_entry` call is modelled from the spec
(History Store `accept`: "On accept, append to HistoryBuffer"). -/
def accept_line (input : List Char) (hist : List (List Char)) : List (List Char) :=
  let trimmed := rustTrim input
  if trimmed = [] then hist
  else if input.head? = some ' ' then hist
  else trim_shell_history (hist ++ [trimmed])

/-- One history insertion as performed by the loop: `add_history_entry`
(modelled from the spec as append) followed by `trim_shell_history`
(main.rs lines 125-126). -/
def history_insert (h : List (List Char)) (e : List Char) : List (List Char) :=
  trim_shell_history (h ++ [e])

/-- Function `save_shell_history` (main.rs lines 244-267).  `openOk` is the oracle
for whether `OpenOptions::open` succeeds; `none` models the `.unwrap()`
panic on the `Err` branch.  The `priorFile` argument is the file's prior
contents, discarded because the file is opened with `truncate(true)`; the
result is the new file contents (one entry per line), the last
`HISTFILESIZE` entries of the buffer. -/
def save_shell_history (openOk : Bool) (priorFile : List (List Char))
    (entries : List (List Char)) : Option (List (List Char)) :=
  let start := if entries.length > HISTFILESIZE then entries.length - HISTFILESIZE else 0
  if openOk then some (entries.drop start) else none

/-- Modelled from the spec: rustyline `Editor::load_history`
(main.rs line 111), absent from this repository.  Spec §4.4 `load`:
"read HistoryFile at startup, becomes the initial HistoryBuffer contents
(subject to the in-memory cap)", with FIFO eviction of the oldest. -/
def load_history (file : List (List Char)) : List (List Char) :=
  file.drop (file.length - HISTSIZE)

/-- Rust `str::split('|')` on the model `List Char` (main.rs line 131):
splits into the (always non-empty) list of pipe-separated pieces,
keeping empty pieces. -/
def splitPipe : List Char → List (List Char)
  | [] => [[]]
  | c :: rest =>
    if c = '|' then [] :: splitPipe rest
    else
      match splitPipe rest with
      | [] => [[c]]
      | s :: ss => (c :: s) :: ss

/-- Rust `str::split_whitespace` on the model `List Char` (main.rs
line 135): the whitespace-separated words, no empties. -/
def splitWs : List Char → List (List Char)
  | [] => []
  | c :: rest =>
    if c.isWhitespace then splitWs rest
    else
      match rest with
      | [] => [[c]]
      | d :: _ =>
        if d.isWhitespace then [c] :: splitWs rest
        else
          match splitWs rest with
          | [] => [[c]]
          | w :: ws => (c :: w) :: ws

/-- The tokenizer of `rshell_loop` (main.rs lines 131-140): split the line
on `'|'`, then split each piece into whitespace-separated words after
trimming (`command.trim().split_whitespace()`).  An empty word list is the
"empty command in pipeline segment" error case. -/
def tokenize (line : List Char) : List (List (List Char)) :=
  (splitPipe line).map (fun s => splitWs (rustTrim s))

/-- The standard-input source chosen for an external stage
(main.rs lines 168-174). -/
inductive Stdin where
  | inherited
  | fromPipe (producer : String)
deriving DecidableEq

/-- The `prev_command : Option<Child>` carried across loop iterations
(main.rs line 132): the spawned command's name and whether its stdout was
`Stdio::piped()` (in which case `stdout.take()` yields the pipe). -/
structure ChildProc where
  cmd : String
  stdoutPiped : Bool
deriving DecidableEq

/-- Observable events of one execution of the per-line `while` loop of
`rshell_loop` (main.rs lines 134-203), in order. -/
inductive Ev where
  | parseErr
  | ranCd
  | ranPwd
  | ranHelp
  | ranHistory
  | spawned (cmd : String) (stdin : Stdin) (piped : Bool)
  | spawnFailed (cmd : String)
  | savedHistory
  | waited (cmd : String)
deriving DecidableEq

/-- The per-line segment loop of `rshell_loop` (main.rs lines 134-203),
as the ordered event trace it produces.  A segment is its word list
(`command :: args`, or `[]` for the empty-command parse error, which
leaves `prev_command` untouched).  `spawnOk` is the oracle for
`Command::spawn` success.  `cd`/`pwd`/`help` set `prev_command = None`;
`exit` saves history and returns (no wait, no further segments);
`history` leaves `prev_command` as it was; an external command takes its
stdin from the previous child's piped stdout when one is held, and after
the loop the surviving `prev_command`, if any, is waited on
(main.rs lines 201-203). -/
def run_segs (spawnOk : String → Bool) :
    List (List String) → Option ChildProc → List Ev
  | [], prev =>
    match prev with
    | some c => [.waited c.cmd]
    | none => []
  | seg :: rest, prev =>
    match seg with
    | [] => .parseErr :: run_segs spawnOk rest prev
    | cmd :: _args =>
      if cmd = "cd" then .ranCd :: run_segs spawnOk rest none
      else if cmd = "pwd" then .ranPwd :: run_segs spawnOk rest none
      else if cmd = "help" then .ranHelp :: run_segs spawnOk rest none
      else if cmd = "exit" then [.savedHistory]
      else if cmd = "history" then .ranHistory :: run_segs spawnOk rest prev
      else
        let sin : Stdin :=
          match prev with
          | some child => if child.stdoutPiped then .fromPipe child.cmd else .inherited
          | none => .inherited
        let piped : Bool := !rest.isEmpty
        if spawnOk cmd then
          .spawned cmd sin piped :: run_segs spawnOk rest (some ⟨cmd, piped⟩)
        else
          .spawnFailed cmd :: run_segs spawnOk rest none

/-- The shell's working-directory state: the current directory (the OS
`env::current_dir()`) and the `oldpwd : Option<PathBuf>` of `rshell_loop`
(main.rs line 108). -/
structure CdState where
  current : String
  oldpwd : Option String
deriving DecidableEq

/-- Outcome of one `cd` invocation: `noop` is the silent early return
(`cd` with no argument while already at home); `noPrevErr` is the
`"cd: previous directory is not set!"` error; `chdirErr e` is the
`"Occured error in builtin cd: e"` error from a failed
`set_current_dir`; `changed` is a successful directory change. -/
inductive CdOutcome where
  | noop
  | noPrevErr
  | chdirErr (msg : String)
  | changed
deriving DecidableEq

/-- Result of the destination computation of `run_builtin_cd`
(main.rs lines 311-340): an early error return, an early silent return,
or a destination handed to `set_current_dir`. -/
inductive CdStep where
  | err
  | homeNoop
  | go (dest : String)
deriving DecidableEq

/-- Rust `str::starts_with` on the `String` model, computed on the
underlying character list. -/
def strStarts (s p : String) : Bool :=
  List.isPrefixOf p.toList s.toList

/-- Rust `PathBuf::join`: an absolute right operand replaces the base. -/
def rustJoin (base suffix : String) : String :=
  if strStarts suffix "/" then suffix else base ++ "/" ++ suffix

/-- Rust `str::trim_start_matches("~/")`: repeatedly strip a leading
`"~/"`. -/
def stripTildeSlash : List Char → List Char
  | '~' :: '/' :: rest => stripTildeSlash rest
  | s => s

/-- The `dest_path` computation of `run_builtin_cd`
(main.rs lines 311-340), on `target = args.next()`. -/
def cd_dest (home : String) (st : CdState) (target : Option String) : CdStep :=
  match target with
  | some t =>
    if t = "-" then
      match st.oldpwd with
      | some p => .go p
      | none => .err
    else if strStarts t "~" then
      if t = "~" ∨ t = "~/" then .go home
      else .go (rustJoin home (String.mk (stripTildeSlash t.toList)))
    else .go t
  | none => if st.current = home then .homeNoop else .go home

/-- Function `run_builtin_cd` (main.rs lines 306-347).  `setDir` is the oracle for
`env::set_current_dir` (error text, or the resulting current directory);
`home` is `$HOME` (with its `"/"` fallback already applied).  On success
the directory that was current before the change is recorded into
`oldpwd` (`*oldpwd = Some(current_dir)`). -/
def cd_apply (setDir : String → Except String String) (st : CdState)
    (dest : String) : CdState × CdOutcome :=
  match setDir dest with
  | .error e => (st, .chdirErr e)
  | .ok newCur => ({ current := newCur, oldpwd := some st.current }, .changed)

def run_builtin_cd (setDir : String → Except String String) (home : String)
    (st : CdState) (args : List String) : CdState × CdOutcome :=
  match cd_dest home st args.head? with
  | .err => (st, .noPrevErr)
  | .homeNoop => (st, .noop)
  | .go dest => cd_apply setDir st dest

/-- Output of the `pwd` builtin: the usage error (`eprintln!` of the
unrecognized option, aborting the segment), the `--help` text, or the
printed path. -/
inductive PwdOut where
  | usageErr (arg : String)
  | helpText
  | pathOut (p : String)
deriving DecidableEq

/-- The flag loop of `run_builtin_pwd` (main.rs lines 365-378):
`physical` starts `true`, `show_help` starts `false`; the first
unrecognized option aborts with an error. -/
def pwd_flags : List String → Bool → Bool → Except String (Bool × Bool)
  | [], physical, showHelp => .ok (physical, showHelp)
  | arg :: rest, physical, showHelp =>
    if arg = "-P" ∨ arg = "--physical" ∨ arg = "-p" then
      pwd_flags rest true showHelp
    else if arg = "-L" ∨ arg = "--logical" ∨ arg = "-l" then
      pwd_flags rest false showHelp
    else if arg = "-h" ∨ arg = "--help" then
      pwd_flags rest physical true
    else .error arg

/-- The set of option strings `run_builtin_pwd` recognizes
(main.rs lines 369-372). -/
def pwd_recognized (a : String) : Bool :=
  decide ((a = "-P" ∨ a = "--physical" ∨ a = "-p") ∨
    (a = "-L" ∨ a = "--logical" ∨ a = "-l") ∨
    (a = "-h" ∨ a = "--help"))

/-- Function `run_builtin_pwd` (main.rs lines 364-400).  `cwd` is the oracle for
`env::current_dir()`, `pwdVar` for `env::var("PWD").ok()`.  After the
flag loop: `show_help` prints the help text and returns; otherwise the
physical path is `cwd` and the logical path is `$PWD` with `cwd` as
fallback. -/
def run_builtin_pwd (cwd : String) (pwdVar : Option String)
    (args : List String) : PwdOut :=
  match pwd_flags args true false with
  | .error arg => .usageErr arg
  | .ok (physical, showHelp) =>
    if showHelp then .helpText
    else if physical then .pathOut cwd
    else .pathOut (pwdVar.getD cwd)

/-! ## History bounding lemmas -/

theorem trim_eq_drop (h : List (List Char)) :
    trim_shell_history h = h.drop (h.length - HISTSIZE) := by
  unfold trim_shell_history
  split
  · rfl
  · next hgt => rw [Nat.sub_eq_zero_of_le (Nat.le_of_not_lt hgt)]

theorem trim_append (a b : List (List Char)) :
    trim_shell_history (trim_shell_history a ++ b) = trim_shell_history (a ++ b) := by
  simp only [trim_eq_drop, List.drop_append_eq_append_drop, List.length_append,
    List.length_drop, List.drop_drop]
  have h1 : a.length - HISTSIZE +
      (a.length - (a.length - HISTSIZE) + b.length - HISTSIZE) =
      a.length + b.length - HISTSIZE := by omega
  have h2 : a.length - (a.length - HISTSIZE) + b.length - HISTSIZE -
      (a.length - (a.length - HISTSIZE)) =
      a.length + b.length - HISTSIZE - a.length := by omega
  rw [h1, h2]

theorem foldl_history_insert (es : List (List Char)) :
    ∀ h : List (List Char),
      es.foldl history_insert (trim_shell_history h) =
        trim_shell_history (h ++ es) := by
  induction es with
  | nil => intro h; simp
  | cons e es ih =>
    intro h
    have step : history_insert (trim_shell_history h) e =
        trim_shell_history (h ++ [e]) := by
      unfold history_insert
      exact trim_append h [e]
    calc (e :: es).foldl history_insert (trim_shell_history h)
        = es.foldl history_insert (trim_shell_history (h ++ [e])) := by
          simp [List.foldl_cons, step]
      _ = trim_shell_history ((h ++ [e]) ++ es) := ih (h ++ [e])
      _ = trim_shell_history (h ++ e :: es) := by simp

theorem foldl_history_insert_nil (es : List (List Char)) :
    es.foldl history_insert [] = es.drop (es.length - HISTSIZE) := by
  have h0 : trim_shell_history ([] : List (List Char)) = [] := by
    simp [trim_shell_history, HISTSIZE]
  have := foldl_history_insert es []
  rw [h0] at this
  simpa [trim_eq_drop] using this

/-- C2 (code_bug evidence): whenever opening the history file fails,
`save_shell_history` hits the `.unwrap()` panic (modelled as `none`):
persisting does crash the shell on an unopenable history file, for every
buffer, contradicting the claim that persisting never crashes. -/
theorem save_history_open_failure_panics
    (priorFile entries : List (List Char)) :
    save_shell_history false priorFile entries = none := rfl

/-- C3: starting from an empty buffer, after any sequence of history
insertions (append + `trim_shell_history`) the buffer holds at most
`HISTSIZE = 1500` entries, and after inserting more than 1500 entries it
is exactly the most recent 1500 in oldest-first order (FIFO eviction of
the front). -/
theorem history_cap_invariant (entries : List (List Char)) :
    (entries.foldl history_insert []).length ≤ HISTSIZE ∧
    (HISTSIZE < entries.length →
      entries.foldl history_insert [] =
        entries.drop (entries.length - HISTSIZE)) := by
  constructor
  · rw [foldl_history_insert_nil, List.length_drop]
    omega
  · intro _
    exact foldl_history_insert_nil entries

/-- C3 witness: 1501 insertions leave exactly the most recent 1500. -/
theorem history_cap_invariant_witness :
    HISTSIZE < (List.replicate 1501 ([] : List Char)).length ∧
    (List.replicate 1501 ([] : List Char)).foldl history_insert [] =
      (List.replicate 1501 ([] : List Char)).drop
        ((List.replicate 1501 ([] : List Char)).length - HISTSIZE) := by
  refine ⟨by rw [List.length_replicate]; norm_num [HISTSIZE], ?_⟩
  exact (history_cap_invariant (List.replicate 1501 [])).2
    (by rw [List.length_replicate]; norm_num [HISTSIZE])

/-- C4: under the HistoryBuffer invariant (at most `HISTSIZE` entries),
persisting with an openable file writes exactly the buffer's most recent
`HISTFILESIZE`-capped entries (here all of them), the written contents
are independent of the file's prior contents (full overwrite, never
appending stale lines), and a fresh-session load of the persisted file
reproduces the same ordered sequence of entries. -/
theorem persist_load_roundtrip (priorFile entries : List (List Char))
    (hlen : entries.length ≤ HISTSIZE) :
    save_shell_history true priorFile entries =
      some (entries.drop (entries.length - HISTFILESIZE)) ∧
    (∀ otherPrior, save_shell_history true otherPrior entries =
      save_shell_history true priorFile entries) ∧
    save_shell_history true priorFile entries = some entries ∧
    load_history entries = entries := by
  have hfile : entries.length ≤ HISTFILESIZE := by
    simp only [HISTSIZE, HISTFILESIZE] at *; omega
  have hdropf : entries.length - HISTFILESIZE = 0 := Nat.sub_eq_zero_of_le hfile
  have hsave : save_shell_history true priorFile entries = some entries := by
    unfold save_shell_history
    have : ¬ entries.length > HISTFILESIZE := by omega
    simp [this]
  refine ⟨?_, ?_, hsave, ?_⟩
  · rw [hdropf, List.drop_zero, hsave]
  · intro otherPrior
    unfold save_shell_history
    rfl
  · unfold load_history
    rw [Nat.sub_eq_zero_of_le hlen, List.drop_zero]

/-- C4 witness: a concrete two-entry buffer over a nonempty prior file
round-trips exactly. -/
theorem persist_load_roundtrip_witness :
    ([['a'], ['b', 'c']] : List (List Char)).length ≤ HISTSIZE ∧
    (save_shell_history true [['o', 'l', 'd']] [['a'], ['b', 'c']] =
        some (([['a'], ['b', 'c']] : List (List Char)).drop
          (([['a'], ['b', 'c']] : List (List Char)).length - HISTFILESIZE)) ∧
      (∀ otherPrior, save_shell_history true otherPrior [['a'], ['b', 'c']] =
        save_shell_history true [['o', 'l', 'd']] [['a'], ['b', 'c']]) ∧
      save_shell_history true [['o', 'l', 'd']] [['a'], ['b', 'c']] =
        some [['a'], ['b', 'c']] ∧
      load_history [['a'], ['b', 'c']] = [['a'], ['b', 'c']]) := by
  refine ⟨by simp [HISTSIZE], ?_⟩
  exact persist_load_roundtrip [['o', 'l', 'd']] [['a'], ['b', 'c']]
    (by simp [HISTSIZE])

/-! ## Trimming lemmas -/

theorem hasLeadWs_dropWhile (l : List Char) :
    hasLeadWs (l.dropWhile Char.isWhitespace) = false := by
  induction l with
  | nil => rfl
  | cons c rest ih =>
    by_cases hc : c.isWhitespace
    · rw [List.dropWhile_cons_of_pos hc]; exact ih
    · rw [List.dropWhile_cons_of_neg hc]
      simp [hasLeadWs, hc]

theorem hasLeadWs_of_append (p q : List Char)
    (h : hasLeadWs (p ++ q) = false) : hasLeadWs p = false := by
  cases p with
  | nil => rfl
  | cons a p => simpa [hasLeadWs] using h

theorem rustTrim_no_lead_ws (s : List Char) :
    hasLeadWs (rustTrim s) = false := by
  unfold rustTrim
  set x := s.dropWhile Char.isWhitespace with hx
  obtain ⟨t, ht⟩ : x.reverse.dropWhile Char.isWhitespace <:+ x.reverse :=
    List.dropWhile_suffix _
  have hdecomp : x = (x.reverse.dropWhile Char.isWhitespace).reverse ++ t.reverse := by
    have := congrArg List.reverse ht
    simpa [List.reverse_append, eq_comm] using this
  have hxlead : hasLeadWs x = false := hasLeadWs_dropWhile s
  rw [hdecomp] at hxlead
  exact hasLeadWs_of_append _ _ hxlead

theorem rustTrim_no_trail_ws (s : List Char) :
    hasLeadWs (rustTrim s).reverse = false := by
  unfold rustTrim
  rw [List.reverse_reverse]
  exact hasLeadWs_dropWhile _

theorem mem_trim_shell_history {e : List Char} {h : List (List Char)}
    (he : e ∈ trim_shell_history h) : e ∈ h :=
  List.drop_subset _ h he

theorem mem_accept_line {e input : List Char} {h : List (List Char)}
    (he : e ∈ accept_line input h) :
    e ∈ h ∨ (e = rustTrim input ∧ rustTrim input ≠ []) := by
  unfold accept_line at he
  by_cases h1 : rustTrim input = []
  · rw [if_pos h1] at he; exact Or.inl he
  · rw [if_neg h1] at he
    by_cases h2 : input.head? = some ' '
    · rw [if_pos h2] at he; exact Or.inl he
    · rw [if_neg h2] at he
      rcases (List.mem_append.mp (mem_trim_shell_history he)) with hl | hr
      · exact Or.inl hl
      · exact Or.inr ⟨List.mem_singleton.mp hr, h1⟩

theorem mem_foldl_accept (inputs : List (List Char)) :
    ∀ (h : List (List Char)) (e : List Char),
      e ∈ inputs.foldl (fun acc i => accept_line i acc) h →
      e ∈ h ∨ ∃ i ∈ inputs, e = rustTrim i ∧ rustTrim i ≠ [] := by
  induction inputs with
  | nil => intro h e he; exact Or.inl he
  | cons i is ih =>
    intro h e he
    rw [List.foldl_cons] at he
    rcases ih (accept_line i h) e he with hmem | ⟨j, hj, hje⟩
    · rcases mem_accept_line hmem with hl | hr
      · exact Or.inl hl
      · exact Or.inr ⟨i, List.mem_cons_self i is, hr⟩
    · exact Or.inr ⟨j, List.mem_cons_of_mem i hj, hje⟩

/-- C7: in the history-recording step of `rshell_loop`, a submitted line
whose raw (untrimmed) form begins with a space character is never added
to the buffer, whatever its trimmed content; every other line with
non-empty trimmed content is appended (trimmed) and the buffer trimmed,
before execution. -/
theorem ignore_space_history (input : List Char) (hist : List (List Char)) :
    (input.head? = some ' ' → accept_line input hist = hist) ∧
    (input.head? ≠ some ' ' → rustTrim input ≠ [] →
      accept_line input hist = trim_shell_history (hist ++ [rustTrim input])) := by
  constructor
  · intro hsp
    unfold accept_line
    by_cases h1 : rustTrim input = []
    · rw [if_pos h1]
    · rw [if_neg h1, if_pos hsp]
  · intro hsp hne
    unfold accept_line
    rw [if_neg hne, if_neg hsp]

/-- C7 witness: `" ls"` (leading space) is dropped even though it trims
to `"ls"`; `"ls "` (no leading space, non-empty trim) is recorded. -/
theorem ignore_space_history_witness :
    accept_line [' ', 'l', 's'] [['a']] = [['a']] ∧
    accept_line ['l', 's', ' '] [['a']] =
      trim_shell_history ([['a']] ++ [rustTrim ['l', 's', ' ']]) := by
  constructor
  · exact (ignore_space_history [' ', 'l', 's'] [['a']]).1 (by decide)
  · exact (ignore_space_history ['l', 's', ' '] [['a']]).2 (by decide) (by decide)

/-- C10: every entry of the history buffer produced by any sequence of
submitted lines (starting from an empty buffer) is the whitespace-trimmed
form of one of the submitted lines, is non-empty, and has neither leading
nor trailing whitespace. -/
theorem history_entries_trimmed (inputs : List (List Char)) (e : List Char)
    (he : e ∈ inputs.foldl (fun acc i => accept_line i acc) []) :
    (∃ i ∈ inputs, e = rustTrim i) ∧ e ≠ [] ∧
      hasLeadWs e = false ∧ hasLeadWs e.reverse = false := by
  rcases mem_foldl_accept inputs [] e he with hnil | ⟨i, hi, hei, hne⟩
  · cases hnil
  · subst hei
    exact ⟨⟨i, hi, rfl⟩, hne, rustTrim_no_lead_ws i, rustTrim_no_trail_ws i⟩

/-- C10 witness: after submitting `"ab "`, the stored entry `"ab"` is the
trimmed form of a submitted line, non-empty, with no edge whitespace. -/
theorem history_entries_trimmed_witness :
    (['a', 'b'] ∈ [['a', 'b', ' ']].foldl (fun acc i => accept_line i acc)
      ([] : List (List Char))) ∧
    ((∃ i ∈ [['a', 'b', ' ']], ['a', 'b'] = rustTrim i) ∧ ['a', 'b'] ≠ [] ∧
      hasLeadWs ['a', 'b'] = false ∧ hasLeadWs ['a', 'b'].reverse = false) := by
  refine ⟨by decide, ?_⟩
  exact history_entries_trimmed [['a', 'b', ' ']] ['a', 'b'] (by decide)

/-! ## Tokenizer lemmas -/

theorem splitPipe_cons (c : Char) (rest : List Char) :
    splitPipe (c :: rest) =
      if c = '|' then [] :: splitPipe rest
      else
        match splitPipe rest with
        | [] => [[c]]
        | s :: ss => (c :: s) :: ss := rfl

theorem splitPipe_no_pipe {l : List Char} (h : '|' ∉ l) :
    splitPipe l = [l] := by
  induction l with
  | nil => rfl
  | cons c rest ih =>
    have hc : c ≠ '|' := fun hc => h (hc ▸ List.mem_cons_self c rest)
    have hrest : '|' ∉ rest := fun hm => h (List.mem_cons_of_mem c hm)
    rw [splitPipe_cons, if_neg hc, ih hrest]

theorem splitPipe_append_pipe {a : List Char} (rest : List Char)
    (h : '|' ∉ a) :
    splitPipe (a ++ '|' :: rest) = a :: splitPipe rest := by
  induction a with
  | nil => simp [splitPipe_cons, splitPipe]
  | cons c a ih =>
    have hc : c ≠ '|' := fun hc => h (hc ▸ List.mem_cons_self c a)
    have ha : '|' ∉ a := fun hm => h (List.mem_cons_of_mem c hm)
    rw [List.cons_append, splitPipe_cons, if_neg hc, ih ha]

/-- C8: a line with no pipe character tokenizes to exactly one segment;
a line of the shape `a ++ "|" ++ b ++ "|" ++ c` (with pipe-free pieces)
tokenizes to exactly the three segments of `a`, `b`, `c` in left-to-right
textual order. -/
theorem tokenize_segments :
    (∀ line : List Char, '|' ∉ line → (tokenize line).length = 1) ∧
    (∀ a b c : List Char, '|' ∉ a → '|' ∉ b → '|' ∉ c →
      tokenize (a ++ '|' :: (b ++ '|' :: c)) =
        [splitWs (rustTrim a), splitWs (rustTrim b), splitWs (rustTrim c)]) := by
  constructor
  · intro line h
    unfold tokenize
    rw [splitPipe_no_pipe h]
    rfl
  · intro a b c ha hb hc
    unfold tokenize
    rw [splitPipe_append_pipe _ ha, splitPipe_append_pipe _ hb,
      splitPipe_no_pipe hc]
    rfl

/-- C8 witness: `"ls -l"` gives one segment; `"a | b|c"` gives the three
segments in textual order. -/
theorem tokenize_segments_witness :
    (tokenize ['l', 's', ' ', '-', 'l']).length = 1 ∧
    tokenize (['a', ' '] ++ '|' :: ([' ', 'b', ' '] ++ '|' :: ['c'])) =
      [splitWs (rustTrim ['a', ' ']), splitWs (rustTrim [' ', 'b', ' ']),
        splitWs (rustTrim ['c'])] := by
  constructor
  · exact tokenize_segments.1 ['l', 's', ' ', '-', 'l'] (by decide)
  · exact tokenize_segments.2 ['a', ' '] [' ', 'b', ' '] ['c']
      (by decide) (by decide) (by decide)

/-! ## Pipeline execution lemmas -/

theorem run_segs_cons (f : String → Bool) (cmd : String) (args : List String)
    (rest : List (List String)) (prev : Option ChildProc) :
    run_segs f ((cmd :: args) :: rest) prev =
      if cmd = "cd" then .ranCd :: run_segs f rest none
      else if cmd = "pwd" then .ranPwd :: run_segs f rest none
      else if cmd = "help" then .ranHelp :: run_segs f rest none
      else if cmd = "exit" then [.savedHistory]
      else if cmd = "history" then .ranHistory :: run_segs f rest prev
      else if f cmd then
        .spawned cmd
          (match prev with
            | some child =>
              if child.stdoutPiped then .fromPipe child.cmd else .inherited
            | none => .inherited)
          (!rest.isEmpty) ::
          run_segs f rest (some ⟨cmd, !rest.isEmpty⟩)
      else .spawnFailed cmd :: run_segs f rest none := rfl

theorem run_segs_append_decomp (f : String → Bool) (pre : List (List String)) :
    ∀ prev : Option ChildProc, (∀ s ∈ pre, s.head? ≠ some "exit") →
      ∃ (evs : List Ev) (prev2 : Option ChildProc),
        (∀ tail, tail ≠ [] →
          run_segs f (pre ++ tail) prev = evs ++ run_segs f tail prev2) ∧
        (∀ c, Ev.waited c ∉ evs) ∧ Ev.savedHistory ∉ evs := by
  induction pre with
  | nil =>
    intro prev _
    exact ⟨[], prev, fun tail _ => rfl, fun c => List.not_mem_nil _, List.not_mem_nil _⟩
  | cons seg pre ih =>
    intro prev h
    have hseg : seg.head? ≠ some "exit" := h seg (List.mem_cons_self _ _)
    have hpre : ∀ s ∈ pre, s.head? ≠ some "exit" :=
      fun s hs => h s (List.mem_cons_of_mem _ hs)
    match seg with
    | [] =>
      obtain ⟨evs, prev2, heq, hw, hs⟩ := ih prev hpre
      refine ⟨.parseErr :: evs, prev2, fun tail htail => ?_, ?_, ?_⟩
      · rw [List.cons_append]
        show Ev.parseErr :: run_segs f (pre ++ tail) prev = _
        rw [heq tail htail, List.cons_append]
      · intro c
        simp only [List.mem_cons, not_or]
        exact ⟨fun hx => Ev.noConfusion hx, hw c⟩
      · simp only [List.mem_cons, not_or]
        exact ⟨fun hx => Ev.noConfusion hx, hs⟩
    | cmd :: args =>
      have hexit : cmd ≠ "exit" := by
        intro hx; exact hseg (by simp [hx])
      by_cases hcd : cmd = "cd"
      · obtain ⟨evs, prev2, heq, hw, hs⟩ := ih none hpre
        refine ⟨.ranCd :: evs, prev2, fun tail htail => ?_, ?_, ?_⟩
        · rw [List.cons_append, run_segs_cons, if_pos hcd, heq tail htail,
            List.cons_append]
        · intro c
          simp only [List.mem_cons, not_or]
          exact ⟨fun hx => Ev.noConfusion hx, hw c⟩
        · simp only [List.mem_cons, not_or]
          exact ⟨fun hx => Ev.noConfusion hx, hs⟩
      · by_cases hpw : cmd = "pwd"
        · obtain ⟨evs, prev2, heq, hw, hs⟩ := ih none hpre
          refine ⟨.ranPwd :: evs, prev2, fun tail htail => ?_, ?_, ?_⟩
          · rw [List.cons_append, run_segs_cons, if_neg hcd, if_pos hpw,
              heq tail htail, List.cons_append]
          · intro c
            simp only [List.mem_cons, not_or]
            exact ⟨fun hx => Ev.noConfusion hx, hw c⟩
          · simp only [List.mem_cons, not_or]
            exact ⟨fun hx => Ev.noConfusion hx, hs⟩
        · by_cases hhe : cmd = "help"
          · obtain ⟨evs, prev2, heq, hw, hs⟩ := ih none hpre
            refine ⟨.ranHelp :: evs, prev2, fun tail htail => ?_, ?_, ?_⟩
            · rw [List.cons_append, run_segs_cons, if_neg hcd, if_neg hpw,
                if_pos hhe, heq tail htail, List.cons_append]
            · intro c
              simp only [List.mem_cons, not_or]
              exact ⟨fun hx => Ev.noConfusion hx, hw c⟩
            · simp only [List.mem_cons, not_or]
              exact ⟨fun hx => Ev.noConfusion hx, hs⟩
          · by_cases hhi : cmd = "history"
            · obtain ⟨evs, prev2, heq, hw, hs⟩ := ih prev hpre
              refine ⟨.ranHistory :: evs, prev2, fun tail htail => ?_, ?_, ?_⟩
              · rw [List.cons_append, run_segs_cons, if_neg hcd, if_neg hpw,
                  if_neg hhe, if_neg hexit, if_pos hhi, heq tail htail,
                  List.cons_append]
              · intro c
                simp only [List.mem_cons, not_or]
                exact ⟨fun hx => Ev.noConfusion hx, hw c⟩
              · simp only [List.mem_cons, not_or]
                exact ⟨fun hx => Ev.noConfusion hx, hs⟩
            · by_cases hok : f cmd
              · obtain ⟨evs, prev2, heq, hw, hs⟩ := ih (some ⟨cmd, true⟩) hpre
                refine ⟨.spawned cmd
                    (match prev with
                      | some child =>
                        if child.stdoutPiped then .fromPipe child.cmd
                        else .inherited
                      | none => .inherited) true :: evs, prev2,
                  fun tail htail => ?_, ?_, ?_⟩
                · have hne : pre ++ tail ≠ [] := by
                    intro hx
                    exact htail ((List.append_eq_nil.mp hx).2)
                  have hemp : (pre ++ tail).isEmpty = false :=
                    List.isEmpty_eq_false.mpr hne
                  rw [List.cons_append, run_segs_cons, if_neg hcd, if_neg hpw,
                    if_neg hhe, if_neg hexit, if_neg hhi, if_pos hok, hemp,
                    Bool.not_false, heq tail htail, List.cons_append]
                · intro c
                  simp only [List.mem_cons, not_or]
                  exact ⟨fun hx => Ev.noConfusion hx, hw c⟩
                · simp only [List.mem_cons, not_or]
                  exact ⟨fun hx => Ev.noConfusion hx, hs⟩
              · obtain ⟨evs, prev2, heq, hw, hs⟩ := ih none hpre
                refine ⟨.spawnFailed cmd :: evs, prev2,
                  fun tail htail => ?_, ?_, ?_⟩
                · rw [List.cons_append, run_segs_cons, if_neg hcd, if_neg hpw,
                    if_neg hhe, if_neg hexit, if_neg hhi,
                    if_neg (by simpa using hok), heq tail htail,
                    List.cons_append]
                · intro c
                  simp only [List.mem_cons, not_or]
                  exact ⟨fun hx => Ev.noConfusion hx, hw c⟩
                · simp only [List.mem_cons, not_or]
                  exact ⟨fun hx => Ev.noConfusion hx, hs⟩

/-- C9: for any line whose segments are `pre ++ [exit-segment] ++ post`
with no exit among `pre`, the loop's event trace ends at the exit
segment with the history persist, the trace is the same whatever `post`
is (later segments are never executed), and no stage is ever waited on
(the final-wait step is skipped by the `return`). -/
theorem exit_terminates_immediately (f : String → Bool)
    (pre post : List (List String)) (args : List String)
    (prev : Option ChildProc)
    (h : ∀ s ∈ pre, s.head? ≠ some "exit") :
    ∃ evs : List Ev,
      run_segs f (pre ++ ("exit" :: args) :: post) prev =
        evs ++ [Ev.savedHistory] ∧
      run_segs f (pre ++ ("exit" :: args) :: post) prev =
        run_segs f (pre ++ [("exit" :: args)]) prev ∧
      (∀ c, Ev.waited c ∉ evs ++ [Ev.savedHistory]) := by
  obtain ⟨evs, prev2, heq, hw, _⟩ := run_segs_append_decomp f pre prev h
  have hx1 : run_segs f (("exit" :: args) :: post) prev2 = [Ev.savedHistory] := rfl
  have hx2 : run_segs f [("exit" :: args)] prev2 = [Ev.savedHistory] := rfl
  refine ⟨evs, ?_, ?_, ?_⟩
  · rw [heq _ (by simp), hx1]
  · rw [heq _ (by simp), heq _ (by by_cases hx : ([("exit" :: args)] :
      List (List String)) = [] <;> simp_all), hx1, hx2]
  · intro c
    simp only [List.mem_append, List.mem_singleton, not_or]
    exact ⟨hw c, fun hx => Ev.noConfusion hx⟩

/-- C9 witness: for the line `ls | exit | grep x` (with spawning
succeeding), the trace ends at the persist, is unchanged by the trailing
segment, and contains no wait. -/
theorem exit_terminates_immediately_witness :
    ∃ evs : List Ev,
      run_segs (fun _ => true) ([["ls"]] ++ ("exit" :: []) :: [["grep", "x"]])
          none = evs ++ [Ev.savedHistory] ∧
      run_segs (fun _ => true) ([["ls"]] ++ ("exit" :: []) :: [["grep", "x"]])
          none = run_segs (fun _ => true) ([["ls"]] ++ [("exit" :: [])]) none ∧
      (∀ c, Ev.waited c ∉ evs ++ [Ev.savedHistory]) :=
  exit_terminates_immediately (fun _ => true) [["ls"]] [["grep", "x"]] [] none
    (by decide)

/-- C1 counterexample: in `a | history | b`, the `history` builtin does
not drop the carried-over stream ownership (`prev_command` is left
untouched in its match arm), so the following external segment `b` reads
the pipe of `a`, not the shell's inherited stdin — refuting the claim
that every builtin drops carried-over stream ownership. -/
theorem history_keeps_pipe_counterexample :
    run_segs (fun _ => true) [["a"], ["history"], ["b"]] none =
      [Ev.spawned "a" .inherited true, Ev.ranHistory,
        Ev.spawned "b" (.fromPipe "a") false, Ev.waited "b"] ∧
    Stdin.fromPipe "a" ≠ Stdin.inherited := by
  constructor
  · rfl
  · intro hx
    exact Stdin.noConfusion hx

/-- C1 amended: the `cd`, `pwd` and `help` builtins run synchronously and
drop any carried-over stream ownership (the loop continues with
`prev_command = None`, so a following external segment falls back to the
shell's inherited stdin); `exit` persists history and ends the loop; the
`history` builtin, by contrast, runs synchronously but leaves the
carried-over ownership in place. -/
theorem builtin_stream_drop_amended (f : String → Bool) (args : List String)
    (rest : List (List String)) (prev : Option ChildProc) :
    run_segs f (("cd" :: args) :: rest) prev = .ranCd :: run_segs f rest none ∧
    run_segs f (("pwd" :: args) :: rest) prev =
      .ranPwd :: run_segs f rest none ∧
    run_segs f (("help" :: args) :: rest) prev =
      .ranHelp :: run_segs f rest none ∧
    run_segs f (("exit" :: args) :: rest) prev = [.savedHistory] ∧
    run_segs f (("history" :: args) :: rest) prev =
      .ranHistory :: run_segs f rest prev ∧
    (∀ (c : String) (args2 : List String) (rest2 : List (List String)),
      c ≠ "cd" → c ≠ "pwd" → c ≠ "help" → c ≠ "exit" → c ≠ "history" →
      f c = true →
      run_segs f (("cd" :: args) :: (c :: args2) :: rest2) prev =
        .ranCd :: .spawned c .inherited (!rest2.isEmpty) ::
          run_segs f rest2 (some ⟨c, !rest2.isEmpty⟩)) := by
  refine ⟨rfl, rfl, rfl, rfl, rfl, ?_⟩
  intro c args2 rest2 h1 h2 h3 h4 h5 hok
  rw [run_segs_cons, if_pos rfl, run_segs_cons, if_neg h1, if_neg h2,
    if_neg h3, if_neg h4, if_neg h5, if_pos hok]

/-- C1 amended witness: concrete instance `cd x | grep y` — after `cd`
the external `grep` reads the shell's inherited stdin. -/
theorem builtin_stream_drop_amended_witness :
    run_segs (fun _ => true) (("cd" :: ["x"]) :: (["grep", "y"]) :: []) none =
      .ranCd :: .spawned "grep" .inherited (!([] : List (List String)).isEmpty) ::
        run_segs (fun _ => true) []
          (some ⟨"grep", !([] : List (List String)).isEmpty⟩) :=
  (builtin_stream_drop_amended (fun _ => true) ["x"] [["grep", "y"]] none).2.2.2.2.2
    "grep" ["y"] [] (by decide) (by decide) (by decide) (by decide) (by decide)
    rfl

/-! ## cd lemmas -/

theorem run_builtin_cd_eq_err {setDir : String → Except String String}
    {home : String} {st : CdState} {args : List String}
    (hdest : cd_dest home st args.head? = .err) :
    run_builtin_cd setDir home st args = (st, .noPrevErr) := by
  unfold run_builtin_cd
  rw [hdest]

theorem run_builtin_cd_eq_noop {setDir : String → Except String String}
    {home : String} {st : CdState} {args : List String}
    (hdest : cd_dest home st args.head? = .homeNoop) :
    run_builtin_cd setDir home st args = (st, .noop) := by
  unfold run_builtin_cd
  rw [hdest]

theorem run_builtin_cd_eq_go {setDir : String → Except String String}
    {home : String} {st : CdState} {args : List String} {d : String}
    (hdest : cd_dest home st args.head? = .go d) :
    run_builtin_cd setDir home st args = cd_apply setDir st d := by
  unfold run_builtin_cd
  rw [hdest]

theorem cd_apply_error {setDir : String → Except String String}
    {st : CdState} {d e : String} (hset : setDir d = .error e) :
    cd_apply setDir st d = (st, .chdirErr e) := by
  unfold cd_apply
  rw [hset]

theorem cd_apply_ok {setDir : String → Except String String}
    {st : CdState} {d newCur : String} (hset : setDir d = .ok newCur) :
    cd_apply setDir st d =
      ({ current := newCur, oldpwd := some st.current }, .changed) := by
  unfold cd_apply
  rw [hset]

/-- C5: (i) whenever the computed destination cannot be entered
(`set_current_dir` fails with any OS error: nonexistent, not a
directory, permission), the error is reported and the whole
WorkingDirectoryState — current and previous alike — is unchanged;
(ii) `cd -` with no recorded previous directory reports the
no-previous-directory error and leaves the state unchanged;
(iii) a successful change records the directory that was current before
the change as the new previous directory. -/
theorem cd_state_spec (setDir : String → Except String String)
    (home : String) (st : CdState) (args : List String) :
    (∀ d e, cd_dest home st args.head? = .go d → setDir d = .error e →
      run_builtin_cd setDir home st args = (st, .chdirErr e)) ∧
    (args.head? = some "-" → st.oldpwd = none →
      run_builtin_cd setDir home st args = (st, .noPrevErr)) ∧
    (∀ st2, (run_builtin_cd setDir home st args).1 = st2 →
      (run_builtin_cd setDir home st args).2 = .changed →
      st2.oldpwd = some st.current) := by
  refine ⟨?_, ?_, ?_⟩
  · intro d e hdest hset
    rw [run_builtin_cd_eq_go hdest, cd_apply_error hset]
  · intro hdash hprev
    have hdest : cd_dest home st args.head? = .err := by
      rw [hdash]
      simp [cd_dest, hprev]
    exact run_builtin_cd_eq_err hdest
  · intro st2 hst hout
    rcases hdest : cd_dest home st args.head? with _ | _ | d
    · rw [run_builtin_cd_eq_err hdest] at hout
      exact absurd hout (by simp)
    · rw [run_builtin_cd_eq_noop hdest] at hout
      exact absurd hout (by simp)
    · rw [run_builtin_cd_eq_go hdest] at hst hout
      rcases hset : setDir d with e | newCur
      · rw [cd_apply_error hset] at hout
        exact absurd hout (by simp)
      · rw [cd_apply_ok hset] at hst
        rw [← hst]

/-- C5 witness: concrete failures and a concrete success.  With an OS
that rejects every change, `cd /nope` from `/home/u` (no previous)
reports the error and leaves both fields unchanged; `cd -` with no
previous reports the error; with an OS that accepts, `cd /tmp` records
`/home/u` as previous. -/
theorem cd_state_spec_witness :
    run_builtin_cd (fun _ => .error "No such file or directory") "/home/u"
      ⟨"/home/u", none⟩ ["/nope"] =
      (⟨"/home/u", none⟩, .chdirErr "No such file or directory") ∧
    run_builtin_cd (fun _ => .error "No such file or directory") "/home/u"
      ⟨"/home/u", none⟩ ["-"] = (⟨"/home/u", none⟩, .noPrevErr) ∧
    (run_builtin_cd (fun d => .ok d) "/home/u" ⟨"/home/u", none⟩
      ["/tmp"]).1.oldpwd = some "/home/u" := by
  refine ⟨?_, ?_, ?_⟩
  · exact (cd_state_spec (fun _ => .error "No such file or directory")
      "/home/u" ⟨"/home/u", none⟩ ["/nope"]).1 "/nope"
      "No such file or directory" (by decide) rfl
  · exact (cd_state_spec (fun _ => .error "No such file or directory")
      "/home/u" ⟨"/home/u", none⟩ ["-"]).2.1 rfl rfl
  · exact (cd_state_spec (fun d => .ok d) "/home/u" ⟨"/home/u", none⟩
      ["/tmp"]).2.2 _ rfl (by decide)

/-! ## pwd lemmas -/

theorem pwd_flags_unrecognized (args : List String) :
    ∀ physical showHelp : Bool,
      (∃ a ∈ args, pwd_recognized a = false) →
      ∃ b ∈ args, pwd_recognized b = false ∧
        pwd_flags args physical showHelp = .error b := by
  induction args with
  | nil =>
    intro _ _ h
    obtain ⟨a, ha, _⟩ := h
    exact absurd ha (List.not_mem_nil a)
  | cons arg rest ih =>
    intro physical showHelp h
    by_cases h1 : arg = "-P" ∨ arg = "--physical" ∨ arg = "-p"
    · have hrec : pwd_recognized arg = true := by
        unfold pwd_recognized
        exact decide_eq_true (Or.inl h1)
      obtain ⟨a, ha, hav⟩ := h
      have harest : a ∈ rest := by
        rcases List.mem_cons.mp ha with hx | hx
        · rw [hx] at hav; rw [hrec] at hav; cases hav
        · exact hx
      obtain ⟨b, hb, hbv, hbe⟩ := ih true showHelp ⟨a, harest, hav⟩
      refine ⟨b, List.mem_cons_of_mem _ hb, hbv, ?_⟩
      unfold pwd_flags
      rw [if_pos h1]
      exact hbe
    · by_cases h2 : arg = "-L" ∨ arg = "--logical" ∨ arg = "-l"
      · have hrec : pwd_recognized arg = true := by
          unfold pwd_recognized
          exact decide_eq_true (Or.inr (Or.inl h2))
        obtain ⟨a, ha, hav⟩ := h
        have harest : a ∈ rest := by
          rcases List.mem_cons.mp ha with hx | hx
          · rw [hx] at hav; rw [hrec] at hav; cases hav
          · exact hx
        obtain ⟨b, hb, hbv, hbe⟩ := ih false showHelp ⟨a, harest, hav⟩
        refine ⟨b, List.mem_cons_of_mem _ hb, hbv, ?_⟩
        unfold pwd_flags
        rw [if_neg h1, if_pos h2]
        exact hbe
      · by_cases h3 : arg = "-h" ∨ arg = "--help"
        · have hrec : pwd_recognized arg = true := by
            unfold pwd_recognized
            exact decide_eq_true (Or.inr (Or.inr h3))
          obtain ⟨a, ha, hav⟩ := h
          have harest : a ∈ rest := by
            rcases List.mem_cons.mp ha with hx | hx
            · rw [hx] at hav; rw [hrec] at hav; cases hav
            · exact hx
          obtain ⟨b, hb, hbv, hbe⟩ := ih physical true ⟨a, harest, hav⟩
          refine ⟨b, List.mem_cons_of_mem _ hb, hbv, ?_⟩
          unfold pwd_flags
          rw [if_neg h1, if_neg h2, if_pos h3]
          exact hbe
        · refine ⟨arg, List.mem_cons_self _ _, ?_, ?_⟩
          · unfold pwd_recognized
            exact decide_eq_false (by tauto)
          · unfold pwd_flags
            rw [if_neg h1, if_neg h2, if_neg h3]

/-- C6 counterexample: `pwd -p` — an argument other than exactly `-L`,
`-P` and `-h` — is accepted by the code (lowercase alias of `-P`) and
prints the current directory: no usage error, and path output is
produced, refuting the claim. -/
theorem pwd_dash_p_counterexample :
    ("-p" ≠ "-L" ∧ "-p" ≠ "-P" ∧ "-p" ≠ "-h") ∧
    run_builtin_pwd "/tmp" none ["-p"] = .pathOut "/tmp" ∧
    (∀ a, run_builtin_pwd "/tmp" none ["-p"] ≠ .usageErr a) := by
  refine ⟨by decide, rfl, ?_⟩
  intro a hx
  exact PwdOut.noConfusion hx

/-- C6 amended: for every argument list containing an option outside the
full recognized set `-P`, `--physical`, `-p`, `-L`, `--logical`, `-l`,
`-h`, `--help`, the `pwd` builtin reports a usage error naming one such
unrecognized option to the error stream and produces no path output. -/
theorem pwd_usage_error_amended (cwd : String) (pwdVar : Option String)
    (args : List String) (h : ∃ a ∈ args, pwd_recognized a = false) :
    ∃ b ∈ args, pwd_recognized b = false ∧
      run_builtin_pwd cwd pwdVar args = .usageErr b ∧
      (∀ p, run_builtin_pwd cwd pwdVar args ≠ .pathOut p) := by
  obtain ⟨b, hb, hbv, hbe⟩ := pwd_flags_unrecognized args true false h
  refine ⟨b, hb, hbv, ?_, ?_⟩
  · unfold run_builtin_pwd
    rw [hbe]
  · intro p hx
    unfold run_builtin_pwd at hx
    rw [hbe] at hx
    exact PwdOut.noConfusion hx

/-- C6 amended witness: `pwd -L bogus` errors on `bogus` and prints no
path. -/
theorem pwd_usage_error_amended_witness :
    ∃ b ∈ ["-L", "bogus"], pwd_recognized b = false ∧
      run_builtin_pwd "/tmp" none ["-L", "bogus"] = .usageErr b ∧
      (∀ p, run_builtin_pwd "/tmp" none ["-L", "bogus"] ≠ .pathOut p) :=
  pwd_usage_error_amended "/tmp" none ["-L", "bogus"]
    ⟨"bogus", by decide, by decide⟩

end RShell
